import Mathlib

/-!
Verification of `src/TensorflowVision/trainv1_MobileNetV2.py`.

Strings are modelled as `List Char` so that all operations are
kernel-computable.  Python library functions used by the script
(`str.strip`, `str.split`, `str.lstrip`, `int`, `cv2.imread`,
`cv2.cvtColor`, `cv2.resize`, the `tf.image` augmentation primitives,
`np.random.permutation`) are embedded by their documented semantics;
the script's own logic is translated line by line.
-/

/-- `IMG_SIZE = 224` (line 29 of the source). -/
def IMG_SIZE : Nat := 224

/-- `BATCH_SIZE = 32` (line 30 of the source). -/
def BATCH_SIZE : Nat := 32

/-- `NUM_CLASSES = 40` (line 31 of the source). -/
def NUM_CLASSES : Nat := 40

/-- Python strings, modelled as lists of characters. -/
abbrev Str := List Char

instance {ε α : Type} [DecidableEq ε] [DecidableEq α] : DecidableEq (Except ε α) := fun x y =>
  match x, y with
  | .ok a, .ok b =>
    if h : a = b then isTrue (by rw [h]) else isFalse (by intro hc; cases hc; exact h rfl)
  | .error a, .error b =>
    if h : a = b then isTrue (by rw [h]) else isFalse (by intro hc; cases hc; exact h rfl)
  | .ok _, .error _ => isFalse (by intro hc; cases hc)
  | .error _, .ok _ => isFalse (by intro hc; cases hc)

/-- Python `str.strip()` with no argument: drop leading and trailing
whitespace. -/
def pyStrip (s : Str) : Str :=
  ((s.dropWhile Char.isWhitespace).reverse.dropWhile Char.isWhitespace).reverse

/-- Helper for `pySplitWs`: accumulates the current token (reversed). -/
def pySplitWsAux : Str → Str → List Str
  | [], acc => if acc = [] then [] else [acc.reverse]
  | c :: cs, acc =>
    if c.isWhitespace then
      if acc = [] then pySplitWsAux cs []
      else acc.reverse :: pySplitWsAux cs []
    else pySplitWsAux cs (c :: acc)

/-- Python `str.split()` with no argument: split on runs of whitespace,
discarding empty pieces. -/
def pySplitWs (s : Str) : List Str := pySplitWsAux s []

/-- Python `str.lstrip(chars)`: remove every leading character that is a
member of the character set `chars` (NOT prefix removal). -/
def pyLstrip (chars : List Char) (s : Str) : Str :=
  s.dropWhile (fun c => chars.contains c)

/-- Digit tail of a Python integer literal: digits in which a single
underscore may stand between two digits. Accumulates the value. -/
def pyDigitsAux : Str → Nat → Option Nat
  | [], acc => some acc
  | '_' :: c :: cs, acc =>
    if c.isDigit then pyDigitsAux cs (acc * 10 + (c.toNat - 48)) else none
  | ['_'], _ => none
  | c :: cs, acc =>
    if c.isDigit then pyDigitsAux cs (acc * 10 + (c.toNat - 48)) else none

/-- A nonempty Python digit sequence (underscores allowed between digits). -/
def pyDigits : Str → Option Nat
  | [] => none
  | c :: cs => if c.isDigit then pyDigitsAux cs (c.toNat - 48) else none

/-- Python `int(s)` on a string: optional surrounding whitespace, optional
sign, then a digit sequence; `none` models the `ValueError`. -/
def pyInt (s : Str) : Option Int :=
  match pyStrip s with
  | '-' :: rest => (pyDigits rest).map (fun n => -(n : Int))
  | '+' :: rest => (pyDigits rest).map (fun n => (n : Int))
  | t => (pyDigits t).map (fun n => (n : Int))

/-- One `(img_path, label)` entry of `GarbageDataset.data`. -/
structure Sample where
  img_path : Str
  label : Int
deriving DecidableEq, Repr

/-- One iteration of the manifest-reading loop (source lines 41-44):
`img_path, label = line.strip().split()` (an error unless exactly two
tokens), `img_path = img_path.lstrip('./')`, `int(label)` (an error on a
non-numeric token).  An `Except.error` models the uncaught Python
exception. -/
def parseLine (line : Str) : Except Str Sample :=
  match pySplitWs (pyStrip line) with
  | [p, l] =>
    match pyInt l with
    | some n => .ok ⟨pyLstrip ['.', '/'] p, n⟩
    | none => .error ("invalid literal for int".toList)
  | _ => .error ("unpack".toList)

/-- The whole manifest loop: parse every line in order, aborting at the
first failure (the exception propagates out of `__init__`). -/
def parseManifest : List Str → Except Str (List Sample)
  | [] => .ok []
  | line :: rest => do
    let s ← parseLine line
    let ss ← parseManifest rest
    pure (s :: ss)

/-- Split a file's contents into lines the way Python's file iteration
does (each line keeps its trailing newline). -/
def pyLinesAux : Str → Str → List Str
  | [], acc => if acc = [] then [] else [acc.reverse]
  | c :: cs, acc =>
    if c = '\n' then (c :: acc).reverse :: pyLinesAux cs []
    else pyLinesAux cs (c :: acc)

/-- All lines of a file's contents. -/
def pyLines (s : Str) : List Str := pyLinesAux s []

/-- The part of `GarbageDataset.__init__` after the file is opened:
`data` is the parsed sample list, `num_samples = len(self.data)`. -/
structure GarbageDataset where
  data : List Sample
  num_samples : Nat
deriving DecidableEq, Repr

/-- Construct a `GarbageDataset` from the manifest file's contents
(source lines 39-46); an `Except.error` is the fatal startup exception. -/
def mkGarbageDataset (content : Str) : Except Str GarbageDataset :=
  (parseManifest (pyLines content)).map (fun d => ⟨d, d.length⟩)

/-- A manifest line is well formed when it splits into exactly two
whitespace-separated tokens and the second is a valid Python integer. -/
def wellFormedLine (line : Str) : Bool :=
  match pySplitWs (pyStrip line) with
  | [_, l] => (pyInt l).isSome
  | _ => false

/-- Behaviour the spec's words ascribe to the path handling: remove
exactly one leading "./" when present, change nothing otherwise.
(Stated for comparison with the source's `pyLstrip`.) -/
def stripOneDotSlash : Str → Str
  | '.' :: '/' :: rest => rest
  | s => s

/-! ### Training-driver callbacks (source lines 175-178) -/

/-- `tf.keras.callbacks.EarlyStopping(patience=3, restore_best_weights=True)`
as configured on source line 176. -/
structure EarlyStoppingCfg where
  patience : Nat
  restore_best_weights : Bool
deriving DecidableEq, Repr

/-- `tf.keras.callbacks.ReduceLROnPlateau(factor=..., patience=...)`
configuration. -/
structure ReduceLROnPlateauCfg where
  factor : ℚ
  patience : Nat
deriving DecidableEq, Repr

/-- The early-stopping callback built in `main` (source line 176). -/
def mainEarlyStopping : EarlyStoppingCfg := ⟨3, true⟩

/-- The LR callback built in `main` (source line 177):
`ReduceLROnPlateau(factor=0.2, patience=2)`.  `0.2 = 1/5`. -/
def mainReduceLR : ReduceLROnPlateauCfg := ⟨1/5, 2⟩

/-- Epoch-end state of the `ReduceLROnPlateau` callback: best monitored
validation loss so far, epochs waited without improvement, current
learning rate. -/
structure LRState where
  best : ℚ
  wait : Nat
  lr : ℚ
deriving DecidableEq, Repr

/-- One epoch-end update of Keras's `ReduceLROnPlateau` (library
behaviour, embedded from its documented semantics: on improvement reset
the wait counter; otherwise increment it, and once it reaches
`patience`, multiply the learning rate by `factor` and reset). -/
def reduceLRStep (cfg : ReduceLROnPlateauCfg) (s : LRState) (valLoss : ℚ) : LRState :=
  if valLoss < s.best then ⟨valLoss, 0, s.lr⟩
  else if cfg.patience ≤ s.wait + 1 then ⟨s.best, 0, cfg.factor * s.lr⟩
  else ⟨s.best, s.wait + 1, s.lr⟩

/-! ### The exporter (source lines 138-146) -/

/-- Serialized model bytes. -/
abbrev Bytes := List Nat

/-- A file written to disk: name and contents. -/
structure FileWrite where
  filename : Str
  contents : Bytes
deriving DecidableEq, Repr

/-- `convert_to_tflite(model, dataset, filename)` (source lines 138-146):
builds a converter from the model alone (DEFAULT optimizations, float16
target type — abstracted into the `convert` function), converts, and
writes the bytes to `filename`.  The `dataset` parameter is bound but
never used in the body. -/
def convert_to_tflite {Model Dataset : Type} (convert : Model → Bytes)
    (model : Model) (dataset : Dataset) (filename : Str) : FileWrite :=
  ⟨filename, convert model⟩

/-! ### The generator of `create_dataset` (source lines 95-115) -/

/-- State of the Python generator: `passes` counts how many permutations
have been drawn so far, `rem` is the unconsumed tail of the current
permutation's index list. -/
structure GenState where
  passes : Nat
  rem : List Nat
deriving DecidableEq, Repr

/-- The initial generator state: no permutation drawn yet. -/
def genStart : GenState := ⟨0, []⟩

/-- One yield of the generator (source lines 96-101).  When the current
pass is exhausted, `while True` re-enters the loop body, drawing the
next permutation `np.random.permutation(len(self.data))` — modelled by
the sequence `perms` of drawn permutations — and yielding its head.
`none` models the degenerate empty-index case, in which the Python loop
spins forever without ever yielding. -/
def genStep (perms : Nat → List Nat) (s : GenState) : Option (Nat × GenState) :=
  match s.rem with
  | i :: rest => some (i, ⟨s.passes, rest⟩)
  | [] =>
    match perms s.passes with
    | [] => none
    | i :: rest => some (i, ⟨s.passes + 1, rest⟩)

/-- The first `n` indices yielded by the generator together with the
state it is left in (`none` if it ever fails to yield). -/
def genRun (perms : Nat → List Nat) : Nat → GenState → Option (List Nat × GenState)
  | 0, s => some ([], s)
  | n + 1, s =>
    match genStep perms s with
    | none => none
    | some (i, s2) => (genRun perms n s2).map (fun r => (i :: r.1, r.2))

/-- `dataset.batch(BATCH_SIZE)` (source line 112) on the generator
stream: the `t`-th batch holds stream elements `[t*B, (t+1)*B)`. -/
def nthBatch (perms : Nat → List Nat) (t : Nat) : List Nat :=
  match genRun perms ((t + 1) * BATCH_SIZE) genStart with
  | some r => r.1.drop (t * BATCH_SIZE)
  | none => []

/-- `steps_per_epoch = train_dataset.num_samples // BATCH_SIZE`
(source line 157). -/
def steps_per_epoch (ds : GarbageDataset) : Nat := ds.num_samples / BATCH_SIZE

/-- `validation_steps = val_dataset.num_samples // BATCH_SIZE`
(source line 158). -/
def validation_steps (ds : GarbageDataset) : Nat := ds.num_samples / BATCH_SIZE

/-! ### The image pipeline of `preprocess_image` (source lines 48-94) -/

/-- One pixel: its channel values.  Processed values are rationals,
modelling the (finite, non-NaN) float32 values this pipeline produces. -/
abbrev Px := List ℚ

/-- A processed image: rows of pixels. -/
abbrev Img := List (List Px)

/-- One raw decoded pixel (uint8 channel values). -/
abbrev RawPx := List Nat

/-- A raw decoded image as returned by `cv2.imread`. -/
abbrev RawImg := List (List RawPx)

/-- What `cv2.imread` guarantees of a successfully decoded image:
positive height and width, rectangular rows, 3 channels per pixel,
uint8 channel values. -/
def rawShape (img : RawImg) (h w : Nat) : Prop :=
  img.length = h ∧ 0 < h ∧ 0 < w ∧
    ∀ row ∈ img, row.length = w ∧ ∀ px ∈ row, px.length = 3 ∧ ∀ v ∈ px, v < 256

/-- `cv2.cvtColor(img, cv2.COLOR_BGR2RGB)` (source line 56): reverse
the channel order of every pixel. -/
def cvtColor_BGR2RGB (img : RawImg) : RawImg :=
  img.map (fun row => row.map List.reverse)

/-- `cv2.resize(img, (IMG_SIZE, IMG_SIZE))` (source line 57), embedded
as nearest-neighbour sampling: output pixel `(i, j)` reads the input
pixel at row `i*h/IMG_SIZE`, column `j*w/IMG_SIZE`. -/
def cv2_resize (img : RawImg) : RawImg :=
  (List.range IMG_SIZE).map (fun i =>
    (List.range IMG_SIZE).map (fun j =>
      (img.getD (i * img.length / IMG_SIZE) []).getD
        (j * (img.headD []).length / IMG_SIZE) [0, 0, 0]))

/-- `img.astype(np.float32) / 255.0` (source line 58). -/
def scaleTo01 (img : RawImg) : Img :=
  img.map (fun row => row.map (fun px => px.map (fun (v : Nat) => (v : ℚ) / 255)))

/-- `np.zeros((IMG_SIZE, IMG_SIZE, 3), dtype=np.float32)` and
`tf.zeros((IMG_SIZE, IMG_SIZE, 3), dtype=tf.float32)`
(source lines 54, 67, 92). -/
def zeroImg : Img :=
  List.replicate IMG_SIZE (List.replicate IMG_SIZE (List.replicate 3 (0 : ℚ)))

/-- A constant image of the output shape. -/
def constImg (q : ℚ) : Img :=
  List.replicate IMG_SIZE (List.replicate IMG_SIZE (List.replicate 3 q))

/-- `tf.reduce_any(tf.math.is_nan(img))` (source line 65): rational
pixel values model finite float values — the pipeline's only inputs are
bytes scaled by `1/255` and zeros, which can never be NaN — so the
check is constantly false. -/
def hasNaN (_ : Img) : Bool := false

/-- The shape `tf.shape(img)` that `tf.debugging.assert_equal` compares
against `[IMG_SIZE, IMG_SIZE, 3]` (source line 70). -/
def tfShape (img : Img) : List Nat :=
  [img.length, (img.headD []).length, ((img.headD []).headD []).length]

/-- `tf.image.flip_left_right` (the flip applied by
`tf.image.random_flip_left_right`, source line 76): reverse each row. -/
def flip_left_right (img : Img) : Img := img.map List.reverse

/-- `tf.image.flip_up_down` (the flip applied by
`tf.image.random_flip_up_down`, source line 78): reverse the rows. -/
def flip_up_down (img : Img) : Img := img.reverse

/-- One counter-clockwise quarter turn of `tf.image.rot90`
(source line 82): output pixel `(i, j)` is input pixel `(j, w-1-i)`. -/
def rot90 (img : Img) : Img :=
  (List.range (img.headD []).length).map (fun i =>
    (List.range img.length).map (fun j =>
      (img.getD j []).getD ((img.headD []).length - 1 - i) [0, 0, 0]))

/-- `tf.image.rot90(img, k)`: iterate `rot90` `k` times. -/
def rot90k : Nat → Img → Img
  | 0, img => img
  | k + 1, img => rot90k k (rot90 img)

/-- `tf.image.adjust_brightness` (the shift applied by
`tf.image.random_brightness`, source line 85): add `delta` everywhere. -/
def adjust_brightness (delta : ℚ) (img : Img) : Img :=
  img.map (fun row => row.map (fun px => px.map (fun v => v + delta)))

/-- `tf.clip_by_value(v, 0.0, 1.0)` on one value (source line 88). -/
def clip01 (v : ℚ) : ℚ := min (max v 0) 1

/-- `tf.clip_by_value(img, 0.0, 1.0)` on the whole image. -/
def clip_by_value01 (img : Img) : Img :=
  img.map (fun row => row.map (fun px => px.map clip01))

/-- The random draws consumed by one training-mode call of
`preprocess_image`: the two flip coins, the rotation count
`k ∈ {0,1,2,3}` (source line 81) and the brightness delta (drawn from
`[-0.2, 0.2]`, source line 85). -/
structure AugRand where
  flipLR : Bool
  flipUD : Bool
  k : Fin 4
  delta : ℚ

/-- Diagnostics printed by `preprocess_image` (source lines 52, 66, 91). -/
inductive LogMsg where
  | readFail (p : Str)
  | nanWarn (p : Str)
  | augmentFail (p : Str)
deriving DecidableEq, Repr

/-- `GarbageDataset.preprocess_image` (source lines 48-94).  `fs` models
the filesystem composed with `cv2.imread`: `none` for a missing or
undecodable file.  On decode failure the all-zero float32 image is
substituted and a warning printed (lines 51-54); otherwise the image is
colour-converted, resized and scaled (lines 56-58).  In training mode
the NaN check (line 65, constantly false here), the
`tf.debugging.assert_equal` shape assertion (line 70, whose failure is
the only exception that can leave the function, modelled as
`Except.error`) and the augmentation sequence (lines 74-88) follow; the
source's `try/except` around the augmentation (lines 90-92) is dead
code in this embedding because the embedded primitives are total.  In
validation mode the decoded image is returned unchanged.

`preprocessAfterDecode` is the part of the function after the decode
(source lines 61-94), shared by both decode outcomes. -/
def preprocessAfterDecode (is_training : Bool) (r : AugRand) (img_path : Str)
    (img0 : Img) (logs : List LogMsg) : Except Str (Img × List LogMsg) :=
  if is_training then
    if hasNaN img0 then .ok (zeroImg, logs ++ [.nanWarn img_path])
    else if tfShape img0 = [IMG_SIZE, IMG_SIZE, 3] then
      let a1 := if r.flipLR then flip_left_right img0 else img0
      let a2 := if r.flipUD then flip_up_down a1 else a1
      let a3 := rot90k r.k.val a2
      let a4 := adjust_brightness r.delta a3
      .ok (clip_by_value01 a4, logs)
    else .error ("assert_equal failed".toList)
  else .ok (img0, logs)

/-- `GarbageDataset.preprocess_image` itself: decode via `fs` (i.e.
`cv2.imread` on line 50), substitute zeros with a warning on failure
(lines 51-54) or colour-convert, resize and scale on success (lines
56-58), then run the post-decode part. -/
def preprocess_image (fs : Str → Option RawImg) (is_training : Bool)
    (r : AugRand) (img_path : Str) : Except Str (Img × List LogMsg) :=
  match fs img_path with
  | none => preprocessAfterDecode is_training r img_path zeroImg [.readFail img_path]
  | some raw => preprocessAfterDecode is_training r img_path
      (scaleTo01 (cv2_resize (cvtColor_BGR2RGB raw))) []

/-- The output-tensor shape contract `(IMG_SIZE, IMG_SIZE, 3)`. -/
def imgShape (img : Img) : Prop :=
  img.length = IMG_SIZE ∧
    ∀ row ∈ img, row.length = IMG_SIZE ∧ ∀ px ∈ row, px.length = 3

/-- All channel values lie in `[0, 1]`. -/
def imgIn01 (img : Img) : Prop :=
  ∀ row ∈ img, ∀ px ∈ row, ∀ v ∈ px, 0 ≤ v ∧ v ≤ 1

/-! ### Basic facts about the manifest parser -/

theorem parseManifest_cons (line : Str) (rest : List Str) :
    parseManifest (line :: rest) =
      (parseLine line).bind (fun s => (parseManifest rest).map (fun ss => s :: ss)) := by
  cases h : parseLine line <;> cases h2 : parseManifest rest <;>
    simp [parseManifest, h, h2, Except.bind, Except.map, bind, pure, Except.pure]

theorem parseLine_ok_iff (line : Str) :
    (∃ s, parseLine line = .ok s) ↔ wellFormedLine line = true := by
  unfold parseLine wellFormedLine
  cases h : pySplitWs (pyStrip line) with
  | nil => simp
  | cons p t =>
    cases t with
    | nil => simp
    | cons l t2 =>
      cases t2 with
      | nil =>
        cases hi : pyInt l <;> simp [hi, Option.isSome]
      | cons c t3 => simp

theorem parseManifest_ok_iff (lines : List Str) :
    (∃ ss, parseManifest lines = .ok ss) ↔ ∀ line ∈ lines, wellFormedLine line = true := by
  induction lines with
  | nil => simp [parseManifest]
  | cons line rest ih =>
    rw [parseManifest_cons]
    constructor
    · rintro ⟨ss, hss⟩ l hl
      cases h : parseLine line with
      | error e => rw [h] at hss; simp [Except.bind] at hss
      | ok s =>
        rw [h] at hss
        cases h2 : parseManifest rest with
        | error e => rw [h2] at hss; simp [Except.bind, Except.map] at hss
        | ok ss2 =>
          rw [List.mem_cons] at hl
          rcases hl with hl | hl
          · subst hl; exact (parseLine_ok_iff l).mp ⟨s, h⟩
          · exact (ih.mp ⟨ss2, h2⟩) l hl
    · intro hall
      obtain ⟨s, hs⟩ := (parseLine_ok_iff line).mpr (hall line (by simp))
      obtain ⟨ss, hss⟩ := ih.mpr (fun l hl => hall l (by simp [hl]))
      exact ⟨s :: ss, by simp [hs, hss, Except.bind, Except.map]⟩

theorem parseManifest_ok_len_order (lines : List Str) (ss : List Sample)
    (h : parseManifest lines = .ok ss) :
    ss.length = lines.length ∧
      ∀ i (h1 : i < lines.length) (h2 : i < ss.length),
        parseLine (lines.get ⟨i, h1⟩) = .ok (ss.get ⟨i, h2⟩) := by
  induction lines generalizing ss with
  | nil =>
    simp [parseManifest] at h
    subst h
    exact ⟨rfl, fun i h1 h2 => absurd h1 (Nat.not_lt_zero i)⟩
  | cons line rest ih =>
    rw [parseManifest_cons] at h
    cases hl : parseLine line with
    | error e => rw [hl] at h; simp [Except.bind] at h
    | ok s =>
      rw [hl] at h
      cases hr : parseManifest rest with
      | error e => rw [hr] at h; simp [Except.bind, Except.map] at h
      | ok ss2 =>
        rw [hr] at h
        simp [Except.bind, Except.map] at h
        subst h
        obtain ⟨hlen, hidx⟩ := ih ss2 hr
        refine ⟨by simp [hlen], ?_⟩
        intro i h1 h2
        cases i with
        | zero => simpa using hl
        | succ j =>
          simp only [List.get_cons_succ]
          exact hidx j (Nat.lt_of_succ_lt_succ h1) (Nat.lt_of_succ_lt_succ h2)

theorem head_dropWhile_not {α : Type} (p : α → Bool) (l : List α) (c : α)
    (h : (l.dropWhile p).head? = some c) : p c = false := by
  induction l with
  | nil => simp [List.dropWhile] at h
  | cons a t ih =>
    by_cases hp : p a = true
    · rw [List.dropWhile_cons_of_pos hp] at h
      exact ih h
    · rw [List.dropWhile_cons_of_neg hp] at h
      simp at h
      subst h
      exact Bool.not_eq_true _ |>.mp hp

/-! ### C2: what the path cleanup actually does -/

/-- C2 (counterexample): the path token `"..a.jpg"` has no leading
`"./"` prefix, so under the claim it would be stored unchanged; the code
(`lstrip('./')`, which removes every leading character in the set
`{'.', '/'}`) stores `"a.jpg"` instead. -/
theorem C2_counterexample :
    parseLine "..a.jpg 1".toList = .ok ⟨"a.jpg".toList, 1⟩ ∧
    stripOneDotSlash "..a.jpg".toList = "..a.jpg".toList ∧
    "a.jpg".toList ≠ "..a.jpg".toList := by
  refine ⟨by decide, by decide, by decide⟩

/-- C2 (amended): for every manifest line, the stored image path is the
path token with its maximal leading run of `'.'` and `'/'` characters
removed: the token splits as that run followed by the stored path, every
character of the run is `'.'` or `'/'`, and the stored path does not
begin with `'.'` or `'/'`. -/
theorem C2_amended (line p l : Str) (n : Int)
    (hsplit : pySplitWs (pyStrip line) = [p, l]) (hint : pyInt l = some n) :
    parseLine line = .ok ⟨pyLstrip ['.', '/'] p, n⟩ ∧
    p.takeWhile (fun c => (['.', '/'] : List Char).contains c) ++ pyLstrip ['.', '/'] p = p ∧
    (∀ c ∈ p.takeWhile (fun c => (['.', '/'] : List Char).contains c), c = '.' ∨ c = '/') ∧
    (∀ c, (pyLstrip ['.', '/'] p).head? = some c → ¬ (c = '.' ∨ c = '/')) := by
  refine ⟨?_, ?_, ?_, ?_⟩
  · unfold parseLine
    rw [hsplit]
    simp [hint]
  · unfold pyLstrip
    apply List.takeWhile_append_dropWhile
  · intro c hc
    have := List.mem_takeWhile_imp hc
    simpa using this
  · intro c hc
    have := head_dropWhile_not _ p c hc
    simpa using this

/-- C2 (witness for the amended theorem) at the spec's own example line
`"./a.jpg 3"`. -/
theorem C2_amended_witness :
    parseLine "./a.jpg 3".toList = .ok ⟨pyLstrip ['.', '/'] "./a.jpg".toList, 3⟩ ∧
    ("./a.jpg".toList).takeWhile (fun c => (['.', '/'] : List Char).contains c) ++
        pyLstrip ['.', '/'] "./a.jpg".toList = "./a.jpg".toList ∧
    (∀ c ∈ ("./a.jpg".toList).takeWhile (fun c => (['.', '/'] : List Char).contains c),
        c = '.' ∨ c = '/') ∧
    (∀ c, (pyLstrip ['.', '/'] "./a.jpg".toList).head? = some c → ¬ (c = '.' ∨ c = '/')) :=
  C2_amended "./a.jpg 3".toList "./a.jpg".toList "3".toList 3 (by decide) (by decide)

/-! ### C4: stored labels are unchecked integers -/

/-- C4 (counterexample): the well-formed manifest `"a.jpg 99"` parses
successfully and stores label `99`, which is not below
`NUM_CLASSES = 40`; no label-range check exists in the code. -/
theorem C4_counterexample :
    mkGarbageDataset "a.jpg 99\n".toList = .ok ⟨[⟨"a.jpg".toList, 99⟩], 1⟩ ∧
    ¬ ((99 : Int) < (NUM_CLASSES : Int)) := by
  refine ⟨by decide, by decide⟩

/-- C4 (amended): every label stored in the parsed sample index is
exactly the Python integer parse of its line's label token; the code
enforces no range restriction, so values outside `[0, NUM_CLASSES)` are
stored as-is. -/
theorem C4_amended (lines : List Str) (ss : List Sample)
    (h : parseManifest lines = .ok ss) :
    ∀ s ∈ ss, ∃ line ∈ lines, ∃ p l, pySplitWs (pyStrip line) = [p, l] ∧
      pyInt l = some s.label := by
  induction lines generalizing ss with
  | nil =>
    simp [parseManifest] at h
    subst h
    simp
  | cons line rest ih =>
    rw [parseManifest_cons] at h
    cases hl : parseLine line with
    | error e => rw [hl] at h; simp [Except.bind] at h
    | ok s =>
      rw [hl] at h
      cases hr : parseManifest rest with
      | error e => rw [hr] at h; simp [Except.bind, Except.map] at h
      | ok ss2 =>
        rw [hr] at h
        simp [Except.bind, Except.map] at h
        subst h
        intro t ht
        rw [List.mem_cons] at ht
        rcases ht with ht | ht
        · subst ht
          unfold parseLine at hl
          revert hl
          cases hs : pySplitWs (pyStrip line) with
          | nil => intro hl; simp at hl
          | cons p rest2 =>
            cases rest2 with
            | nil => intro hl; simp at hl
            | cons l rest3 =>
              cases rest3 with
              | nil =>
                cases hi : pyInt l with
                | none => intro hl; simp [hi] at hl
                | some n =>
                  intro hl
                  simp [hi] at hl
                  subst hl
                  exact ⟨line, by simp, p, l, hs, by rw [hi]⟩
              | cons c rest4 => intro hl; simp at hl
        · obtain ⟨line2, hmem, rest5⟩ := ih ss2 hr t ht
          exact ⟨line2, by simp [hmem], rest5⟩

/-- C4 (witness for the amended theorem) on the one-line manifest
`"a.jpg 99"`, instantiated at its single stored sample. -/
theorem C4_amended_witness :
    ∃ line ∈ ["a.jpg 99".toList],
      ∃ p l, pySplitWs (pyStrip line) = [p, l] ∧ pyInt l = some (99 : Int) :=
  C4_amended ["a.jpg 99".toList] [⟨"a.jpg".toList, 99⟩] (by decide)
    ⟨"a.jpg".toList, 99⟩ (by decide)

/-! ### C5: construction fails exactly on malformed lines -/

/-- C5: parsing the manifest succeeds (yields a dataset) if and only if
every line splits into exactly two whitespace-separated tokens whose
second token is a valid Python integer; any malformed line makes the
whole construction fail with an error, so no partially parsed dataset is
ever produced and nothing is retried. -/
theorem C5_parse_fails_iff_malformed (lines : List Str) :
    ((∃ ss, parseManifest lines = .ok ss) ↔ ∀ line ∈ lines, wellFormedLine line = true) ∧
    ((∃ e, parseManifest lines = .error e) ↔ ∃ line ∈ lines, wellFormedLine line = false) := by
  have hok := parseManifest_ok_iff lines
  constructor
  · exact hok
  · constructor
    · rintro ⟨e, he⟩
      by_contra hno
      push_neg at hno
      have : ∀ line ∈ lines, wellFormedLine line = true := by
        intro l hl
        have := hno l hl
        simpa using this
      obtain ⟨ss, hss⟩ := hok.mpr this
      rw [hss] at he
      cases he
    · rintro ⟨l, hl, hbad⟩
      cases h : parseManifest lines with
      | error e => exact ⟨e, rfl⟩
      | ok ss =>
        have := hok.mp ⟨ss, h⟩ l hl
        rw [hbad] at this
        cases this

/-! ### C6: count, order, no deduplication -/

/-- C6: whenever the manifest parses, the sample index has exactly one
entry per line, in line order (entry `i` is the parse of line `i`, so
duplicates are kept); and the spec's concrete scenario holds:
`"a.jpg 3\nb.jpg 0\n"` parses to `[("a.jpg", 3), ("b.jpg", 0)]` with
`num_samples = 2`. -/
theorem C6_order_count (lines : List Str) (ss : List Sample)
    (h : parseManifest lines = .ok ss) :
    ss.length = lines.length ∧
    (∀ i (h1 : i < lines.length) (h2 : i < ss.length),
        parseLine (lines.get ⟨i, h1⟩) = .ok (ss.get ⟨i, h2⟩)) ∧
    mkGarbageDataset "a.jpg 3\nb.jpg 0\n".toList =
      .ok ⟨[⟨"a.jpg".toList, 3⟩, ⟨"b.jpg".toList, 0⟩], 2⟩ := by
  obtain ⟨h1, h2⟩ := parseManifest_ok_len_order lines ss h
  exact ⟨h1, h2, by decide⟩

/-! ### C3: what the LR callback multiplies by -/

/-- C3 (counterexample): starting from learning rate `1`, after a
two-epoch plateau the callback configured in `main` sets the learning
rate to `1/5` (factor `0.2`), not to `1 * (1/2)`: the code does not
halve the learning rate. -/
theorem C3_counterexample :
    (reduceLRStep mainReduceLR (reduceLRStep mainReduceLR ⟨1, 0, 1⟩ 1) 1).lr = 1/5 ∧
    ((1 : ℚ)/5) ≠ (1 : ℚ) * (1/2) := by
  refine ⟨by norm_num [reduceLRStep, mainReduceLR], by norm_num⟩

/-- C3 (amended): when validation loss plateaus for 2 epochs
(`patience = 2`), the callback built in `main` multiplies the learning
rate by `0.2`, not by `0.5`. -/
theorem C3_amended (s : LRState) (loss1 loss2 : ℚ) (h0 : s.wait = 0)
    (h1 : ¬ loss1 < s.best) (h2 : ¬ loss2 < s.best) :
    mainReduceLR.patience = 2 ∧
    (reduceLRStep mainReduceLR (reduceLRStep mainReduceLR s loss1) loss2).lr = (1/5) * s.lr := by
  refine ⟨rfl, ?_⟩
  have hstep1 : reduceLRStep mainReduceLR s loss1 = ⟨s.best, s.wait + 1, s.lr⟩ := by
    unfold reduceLRStep
    rw [if_neg h1, if_neg (by simp [mainReduceLR, h0])]
  rw [hstep1]
  unfold reduceLRStep
  rw [if_neg h2, if_pos (by simp [mainReduceLR, h0])]
  simp [mainReduceLR]

/-- C3 (witness for the amended theorem): a plateau at loss `1` starting
from best `1`, wait `0`, learning rate `1`. -/
theorem C3_amended_witness :
    mainReduceLR.patience = 2 ∧
    (reduceLRStep mainReduceLR (reduceLRStep mainReduceLR ⟨1, 0, 1⟩ 1) 1).lr = (1/5) * 1 :=
  C3_amended ⟨1, 0, 1⟩ 1 1 rfl (by norm_num) (by norm_num)

/-! ### C10: the exporter ignores its dataset argument -/

/-- C10: the exporter's output is independent of its dataset argument —
for the same model, converter and filename, any two dataset arguments
(even of different types) produce identical file contents. -/
theorem C10_dataset_independent {Model Dataset1 Dataset2 : Type}
    (convert : Model → Bytes) (model : Model) (d1 : Dataset1) (d2 : Dataset2)
    (filename : Str) :
    convert_to_tflite convert model d1 filename =
      convert_to_tflite convert model d2 filename := rfl

/-- C6 (witness) on the spec's two-line manifest. -/
theorem C6_order_count_witness :
    ([⟨"a.jpg".toList, 3⟩, ⟨"b.jpg".toList, 0⟩] : List Sample).length =
      ["a.jpg 3\n".toList, "b.jpg 0\n".toList].length :=
  (C6_order_count ["a.jpg 3\n".toList, "b.jpg 0\n".toList]
    [⟨"a.jpg".toList, 3⟩, ⟨"b.jpg".toList, 0⟩] (by decide)).1

/-! ### Generator lemmas -/

theorem genRun_part (perms : Nat → List Nat) (e : Nat) :
    ∀ (j : Nat) (l : List Nat), j ≤ l.length →
      genRun perms j ⟨e, l⟩ = some (l.take j, ⟨e, l.drop j⟩) := by
  intro j
  induction j with
  | zero => intro l h; simp [genRun]
  | succ k ih =>
    intro l h
    cases l with
    | nil => simp at h
    | cons a t =>
      have ht : k ≤ t.length := Nat.succ_le_succ_iff.mp h
      simp [genRun, genStep, ih t ht]

theorem genRun_add (perms : Nat → List Nat) (a b : Nat) :
    ∀ s, genRun perms (a + b) s =
      (genRun perms a s).bind
        (fun r => (genRun perms b r.2).map (fun r2 => (r.1 ++ r2.1, r2.2))) := by
  induction a with
  | zero =>
    intro s
    rw [Nat.zero_add]
    cases h : genRun perms b s <;> simp [genRun, h, Option.bind]
  | succ k ih =>
    intro s
    rw [Nat.succ_add]
    cases hs : genStep perms s with
    | none => simp [genRun, hs, Option.bind]
    | some is2 =>
      obtain ⟨i, s2⟩ := is2
      cases hk : genRun perms k s2 with
      | none =>
        have hkb : genRun perms (k + b) s2 = none := by
          rw [ih s2, hk]
          rfl
        simp [genRun, hs, hk, hkb, Option.bind]
      | some r =>
        obtain ⟨ys, sm⟩ := r
        cases hb : genRun perms b sm with
        | none => simp [genRun, hs, ih s2, hk, hb, Option.bind]
        | some r2 => simp [genRun, hs, ih s2, hk, hb, Option.bind]

theorem genRun_take_pass (perms : Nat → List Nat) (N : Nat)
    (hN : ∀ e, (perms e).length = N) (e k : Nat) (hk : k ≤ N) :
    ∃ s2, genRun perms k ⟨e, []⟩ = some ((perms e).take k, s2) := by
  cases k with
  | zero => exact ⟨⟨e, []⟩, by simp [genRun]⟩
  | succ j =>
    cases hp : perms e with
    | nil =>
      have := hN e
      rw [hp] at this
      simp at this
      omega
    | cons i rest =>
      have hlen : j ≤ rest.length := by
        have := hN e
        rw [hp] at this
        simp at this
        omega
      refine ⟨⟨e + 1, rest.drop j⟩, ?_⟩
      simp [genRun, genStep, hp, genRun_part perms (e + 1) j rest hlen]

theorem genRun_full_pass (perms : Nat → List Nat) (N : Nat)
    (hN : ∀ e, (perms e).length = N) (h0 : 0 < N) (e : Nat) :
    genRun perms N ⟨e, []⟩ = some (perms e, ⟨e + 1, []⟩) := by
  cases hp : perms e with
  | nil =>
    exfalso
    have := hN e
    rw [hp] at this
    simp at this
    omega
  | cons i rest =>
    have hNeq : N = rest.length + 1 := by
      have := hN e
      rw [hp] at this
      simp at this
      omega
    subst hNeq
    simp [genRun, genStep, hp, genRun_part perms (e + 1) rest.length rest (le_refl _)]

theorem genRun_epochs (perms : Nat → List Nat) (N : Nat)
    (hN : ∀ e, (perms e).length = N) (h0 : 0 < N) :
    ∀ m, genRun perms (m * N) genStart =
      some (((List.range m).map perms).flatten, ⟨m, []⟩) := by
  intro m
  induction m with
  | zero => simp [genRun, genStart]
  | succ k ih =>
    have hmul : (k + 1) * N = k * N + N := by ring
    rw [hmul, genRun_add, ih]
    simp [Option.bind, genRun_full_pass perms N hN h0 k, List.range_succ]

/-! ### C9: the generator is unbounded and reshuffles per pass -/

/-- C9: with a non-empty sample index (`0 < N`, where each drawn
permutation `perms e` is a permutation of `range N`), the generator
never fails to yield — `genRun` succeeds for every requested length, so
the produced sequence is unbounded — and after each full pass of `N`
yields it has drawn a fresh permutation: the first `m * N` yields are
exactly the concatenation of the first `m` drawn permutations. -/
theorem C9_infinite_generator (perms : Nat → List Nat) (N : Nat)
    (hperm : ∀ e, (perms e).Perm (List.range N)) (h0 : 0 < N) :
    (∀ n, (genRun perms n genStart).isSome = true) ∧
    (∀ m, genRun perms (m * N) genStart =
      some (((List.range m).map perms).flatten, ⟨m, []⟩)) := by
  have hN : ∀ e, (perms e).length = N := fun e => by
    rw [(hperm e).length_eq, List.length_range]
  refine ⟨?_, genRun_epochs perms N hN h0⟩
  intro n
  have hdecomp : (n / N) * N + n % N = n := by
    rw [Nat.mul_comm]
    exact Nat.div_add_mod n N
  obtain ⟨s2, hs2⟩ := genRun_take_pass perms N hN (n / N) (n % N)
    (le_of_lt (Nat.mod_lt n h0))
  rw [← hdecomp, genRun_add, genRun_epochs perms N hN h0 (n / N)]
  simp [Option.bind, hs2]

/-- C9 (witness): a single-sample index with the identity permutation
drawn every pass; the generator still yields at step 5. -/
theorem C9_infinite_generator_witness :
    (genRun (fun _ => [0]) 5 genStart).isSome = true :=
  (C9_infinite_generator (fun _ => [0]) 1
    (fun _ => List.Perm.refl [0]) (by decide)).1 5

/-! ### C8: step counts and complete batches from one permutation -/

/-- C8: `steps_per_epoch` and `validation_steps` are both
`floor(num_samples / 32)`; and for every `t < N / BATCH_SIZE`, the
`t`-th batch of the generator stream is a complete batch of exactly
`BATCH_SIZE` samples, equal to a contiguous slice of the first drawn
permutation `perms 0` — so one epoch's `floor(N/B)` batches all come
from that single permutation, before any reshuffle. -/
theorem C8_steps_and_batches (perms : Nat → List Nat) (N t : Nat)
    (ds : GarbageDataset) (hperm : ∀ e, (perms e).Perm (List.range N))
    (hds : ds.num_samples = N) (ht : t < N / BATCH_SIZE) :
    steps_per_epoch ds = N / 32 ∧ validation_steps ds = N / 32 ∧
    (nthBatch perms t).length = BATCH_SIZE ∧
    nthBatch perms t = ((perms 0).drop (t * BATCH_SIZE)).take BATCH_SIZE ∧
    ∀ i ∈ nthBatch perms t, i ∈ perms 0 := by
  have hN : ∀ e, (perms e).length = N := fun e => by
    rw [(hperm e).length_eq, List.length_range]
  have hle : (t + 1) * BATCH_SIZE ≤ N := by
    calc (t + 1) * BATCH_SIZE ≤ (N / BATCH_SIZE) * BATCH_SIZE :=
          Nat.mul_le_mul_right _ ht
    _ ≤ N := Nat.div_mul_le_self N BATCH_SIZE
  have hle2 : t * BATCH_SIZE + BATCH_SIZE ≤ N := by
    rw [← Nat.succ_mul]
    exact hle
  obtain ⟨s2, hs2⟩ := genRun_take_pass perms N hN 0 ((t + 1) * BATCH_SIZE) hle
  have hbatch : nthBatch perms t =
      ((perms 0).drop (t * BATCH_SIZE)).take BATCH_SIZE := by
    unfold nthBatch genStart
    rw [hs2]
    show ((perms 0).take ((t + 1) * BATCH_SIZE)).drop (t * BATCH_SIZE) = _
    rw [List.drop_take]
    congr 1
    rw [Nat.succ_mul]
    omega
  refine ⟨by simp [steps_per_epoch, hds, BATCH_SIZE],
    by simp [validation_steps, hds, BATCH_SIZE], ?_, hbatch, ?_⟩
  · rw [hbatch, List.length_take, List.length_drop, hN 0]
    omega
  · intro i hi
    rw [hbatch] at hi
    exact List.drop_subset _ _ (List.take_subset _ _ hi)

/-- C8 (witness): `N = 64` samples with the identity permutation drawn
every pass; batch `t = 0` is complete. -/
theorem C8_steps_and_batches_witness :
    (nthBatch (fun _ => List.range 64) 0).length = BATCH_SIZE :=
  (C8_steps_and_batches (fun _ => List.range 64) 64 0 ⟨[], 64⟩
    (fun _ => List.Perm.refl _) rfl (by decide)).2.2.1

/-! ### Image lemmas -/

theorem headD_mem {α : Type} (l : List α) (d : α) (h : l ≠ []) : l.headD d ∈ l := by
  cases l with
  | nil => exact absurd rfl h
  | cons a t => simp [List.headD]

theorem getD_mem_of_lt {α : Type} (l : List α) (n : Nat) (d : α)
    (h : n < l.length) : l.getD n d ∈ l := by
  rw [List.getD_eq_getElem l d h]
  exact List.getElem_mem h

theorem range_map_const {α : Type} (n : Nat) (c : α) :
    (List.range n).map (fun _ => c) = List.replicate n c := by
  induction n with
  | zero => simp
  | succ k ih => rw [List.range_succ, List.map_append, ih, List.replicate_succ']; simp

theorem headD_replicate {α : Type} (n : Nat) (a d : α) (h : 0 < n) :
    (List.replicate n a).headD d = a := by
  cases n with
  | zero => omega
  | succ m => simp [List.replicate]

theorem getD_replicate {α : Type} (n i : Nat) (a d : α) (h : i < n) :
    (List.replicate n a).getD i d = a := by
  rw [List.getD_eq_getElem _ d (by simpa using h)]
  simp

theorem idx_div_lt (i n m : Nat) (hi : i < m) (hn : 0 < n) : i * n / m < n := by
  apply Nat.div_lt_of_lt_mul
  exact (Nat.mul_lt_mul_right hn).mpr hi

theorem imgShape_const (q : ℚ) : imgShape (constImg q) := by
  refine ⟨by simp [constImg], ?_⟩
  intro row hrow
  unfold constImg at hrow
  have hr := List.eq_of_mem_replicate hrow
  subst hr
  refine ⟨by simp, ?_⟩
  intro px hpx
  have hp := List.eq_of_mem_replicate hpx
  subst hp
  simp

theorem imgShape_zero : imgShape zeroImg := imgShape_const 0

theorem imgIn01_const (q : ℚ) (h0 : 0 ≤ q) (h1 : q ≤ 1) : imgIn01 (constImg q) := by
  intro row hrow px hpx v hv
  unfold constImg at hrow
  have hr := List.eq_of_mem_replicate hrow
  subst hr
  have hp := List.eq_of_mem_replicate hpx
  subst hp
  have hveq := List.eq_of_mem_replicate hv
  subst hveq
  exact ⟨h0, h1⟩

theorem imgIn01_zero : imgIn01 zeroImg := imgIn01_const 0 le_rfl zero_le_one

theorem tfShape_of_imgShape (img : Img) (h : imgShape img) :
    tfShape img = [IMG_SIZE, IMG_SIZE, 3] := by
  obtain ⟨hlen, hrows⟩ := h
  have hne : img ≠ [] := by
    intro he
    rw [he] at hlen
    simp [IMG_SIZE] at hlen
  have hhead := hrows _ (headD_mem img [] hne)
  have hrne : (img.headD []) ≠ [] := by
    intro he
    rw [he] at hhead
    simp [IMG_SIZE] at hhead
  have hpx := hhead.2 _ (headD_mem _ [] hrne)
  unfold tfShape
  rw [hlen, hhead.1, hpx]

theorem imgShape_flipLR (img : Img) (h : imgShape img) :
    imgShape (flip_left_right img) := by
  obtain ⟨hlen, hrows⟩ := h
  refine ⟨by simp [flip_left_right, hlen], ?_⟩
  intro row hrow
  simp only [flip_left_right, List.mem_map] at hrow
  obtain ⟨r0, hr0, rfl⟩ := hrow
  obtain ⟨hr0len, hr0px⟩ := hrows r0 hr0
  refine ⟨by simp [hr0len], ?_⟩
  intro px hpx
  exact hr0px px (List.mem_reverse.mp hpx)

theorem imgShape_flipUD (img : Img) (h : imgShape img) :
    imgShape (flip_up_down img) := by
  obtain ⟨hlen, hrows⟩ := h
  refine ⟨by simp [flip_up_down, hlen], ?_⟩
  intro row hrow
  simp only [flip_up_down, List.mem_reverse] at hrow
  exact hrows row hrow

theorem imgShape_rot90 (img : Img) (h : imgShape img) : imgShape (rot90 img) := by
  obtain ⟨hlen, hrows⟩ := h
  have hne : img ≠ [] := by
    intro he
    rw [he] at hlen
    simp [IMG_SIZE] at hlen
  have hhead : (img.headD []).length = IMG_SIZE := (hrows _ (headD_mem img [] hne)).1
  refine ⟨by simp only [rot90, List.length_map, List.length_range]; exact hhead, ?_⟩
  intro row hrow
  simp only [rot90, List.mem_map, List.mem_range] at hrow
  obtain ⟨i, hi, rfl⟩ := hrow
  refine ⟨by simp [hlen], ?_⟩
  intro px hpx
  simp only [List.mem_map, List.mem_range] at hpx
  obtain ⟨j, hj, rfl⟩ := hpx
  have hrowj : img.getD j [] ∈ img := getD_mem_of_lt img j [] hj
  have hrl : (img.getD j []).length = IMG_SIZE := (hrows _ hrowj).1
  have hidx : (img.headD []).length - 1 - i < (img.getD j []).length := by
    rw [hrl, hhead]
    simp only [IMG_SIZE]
    omega
  exact (hrows _ hrowj).2 _ (getD_mem_of_lt _ _ _ hidx)

theorem imgShape_rot90k (k : Nat) (img : Img) (h : imgShape img) :
    imgShape (rot90k k img) := by
  induction k generalizing img with
  | zero => simpa [rot90k] using h
  | succ m ih => exact ih _ (imgShape_rot90 img h)

theorem imgShape_map3 (f : ℚ → ℚ) (img : Img) (h : imgShape img) :
    imgShape (img.map (fun row => row.map (fun px => px.map f))) := by
  obtain ⟨hlen, hrows⟩ := h
  refine ⟨by simp [hlen], ?_⟩
  intro row hrow
  simp only [List.mem_map] at hrow
  obtain ⟨r0, hr0, rfl⟩ := hrow
  obtain ⟨hr0len, hr0px⟩ := hrows r0 hr0
  refine ⟨by simp [hr0len], ?_⟩
  intro px hpx
  simp only [List.mem_map] at hpx
  obtain ⟨p0, hp0, rfl⟩ := hpx
  rw [List.length_map]
  exact hr0px p0 hp0

theorem imgShape_brightness (delta : ℚ) (img : Img) (h : imgShape img) :
    imgShape (adjust_brightness delta img) := by
  unfold adjust_brightness
  exact imgShape_map3 _ img h

theorem imgShape_clip (img : Img) (h : imgShape img) :
    imgShape (clip_by_value01 img) := by
  unfold clip_by_value01
  exact imgShape_map3 _ img h

theorem imgIn01_clip (img : Img) : imgIn01 (clip_by_value01 img) := by
  intro row hrow px hpx v hv
  simp only [clip_by_value01, List.mem_map] at hrow
  obtain ⟨r0, hr0, rfl⟩ := hrow
  simp only [List.mem_map] at hpx
  obtain ⟨p0, hp0, rfl⟩ := hpx
  simp only [List.mem_map] at hv
  obtain ⟨v0, hv0, rfl⟩ := hv
  unfold clip01
  constructor
  · exact le_min (le_max_right v0 0) zero_le_one
  · exact min_le_right _ _

theorem imgShape_iteFlipLR (b : Bool) (img : Img) (h : imgShape img) :
    imgShape (if b then flip_left_right img else img) := by
  cases b with
  | false => simpa using h
  | true => simpa using imgShape_flipLR img h

theorem imgShape_iteFlipUD (b : Bool) (img : Img) (h : imgShape img) :
    imgShape (if b then flip_up_down img else img) := by
  cases b with
  | false => simpa using h
  | true => simpa using imgShape_flipUD img h

theorem rawShape_cvtColor (img : RawImg) (h w : Nat) (hs : rawShape img h w) :
    rawShape (cvtColor_BGR2RGB img) h w := by
  obtain ⟨hlen, hh, hw, hrows⟩ := hs
  refine ⟨by simp [cvtColor_BGR2RGB, hlen], hh, hw, ?_⟩
  intro row hrow
  simp only [cvtColor_BGR2RGB, List.mem_map] at hrow
  obtain ⟨r0, hr0, rfl⟩ := hrow
  obtain ⟨hr0len, hr0px⟩ := hrows r0 hr0
  refine ⟨by simp [hr0len], ?_⟩
  intro px hpx
  simp only [List.mem_map] at hpx
  obtain ⟨p0, hp0, rfl⟩ := hpx
  obtain ⟨hp0len, hp0v⟩ := hr0px p0 hp0
  refine ⟨by simp [hp0len], ?_⟩
  intro v hv
  exact hp0v v (List.mem_reverse.mp hv)

theorem rawShape_resize (img : RawImg) (h w : Nat) (hs : rawShape img h w) :
    rawShape (cv2_resize img) IMG_SIZE IMG_SIZE := by
  obtain ⟨hlen, hh, hw, hrows⟩ := hs
  have hne : img ≠ [] := by
    intro he
    rw [he] at hlen
    simp at hlen
    omega
  have hhead : (img.headD []).length = w := (hrows _ (headD_mem img [] hne)).1
  refine ⟨by simp [cv2_resize], by simp [IMG_SIZE], by simp [IMG_SIZE], ?_⟩
  intro row hrow
  simp only [cv2_resize, List.mem_map, List.mem_range] at hrow
  obtain ⟨i, hi, rfl⟩ := hrow
  refine ⟨by simp, ?_⟩
  intro px hpx
  simp only [List.mem_map, List.mem_range] at hpx
  obtain ⟨j, hj, rfl⟩ := hpx
  have ha : i * img.length / IMG_SIZE < img.length := by
    rw [hlen]
    exact idx_div_lt i h IMG_SIZE hi hh
  have hrowa : img.getD (i * img.length / IMG_SIZE) [] ∈ img := getD_mem_of_lt _ _ _ ha
  obtain ⟨hralen, hrapx⟩ := hrows _ hrowa
  have hb : j * (img.headD []).length / IMG_SIZE < (img.getD (i * img.length / IMG_SIZE) []).length := by
    rw [hralen, hhead]
    exact idx_div_lt j w IMG_SIZE hj hw
  exact hrapx _ (getD_mem_of_lt _ _ _ hb)

theorem scale_shape (img : RawImg) (hs : rawShape img IMG_SIZE IMG_SIZE) :
    imgShape (scaleTo01 img) := by
  obtain ⟨hlen, hh, hw, hrows⟩ := hs
  refine ⟨by simp [scaleTo01, hlen], ?_⟩
  intro row hrow
  simp only [scaleTo01, List.mem_map] at hrow
  obtain ⟨r0, hr0, rfl⟩ := hrow
  obtain ⟨hr0len, hr0px⟩ := hrows r0 hr0
  refine ⟨by simp [hr0len], ?_⟩
  intro px hpx
  simp only [List.mem_map] at hpx
  obtain ⟨p0, hp0, rfl⟩ := hpx
  rw [List.length_map]
  exact (hr0px p0 hp0).1

theorem scale_in01 (img : RawImg) (h w : Nat) (hs : rawShape img h w) :
    imgIn01 (scaleTo01 img) := by
  obtain ⟨hlen, hh, hw, hrows⟩ := hs
  intro row hrow px hpx v hv
  simp only [scaleTo01, List.mem_map] at hrow
  obtain ⟨r0, hr0, rfl⟩ := hrow
  simp only [List.mem_map] at hpx
  obtain ⟨p0, hp0, rfl⟩ := hpx
  simp only [List.mem_map] at hv
  obtain ⟨v0, hv0, rfl⟩ := hv
  have hv0le : v0 < 256 := ((hrows r0 hr0).2 p0 hp0).2 v0 hv0
  constructor
  · positivity
  · rw [div_le_one (by norm_num)]
    exact_mod_cast Nat.le_of_lt_succ hv0le

/-! ### The placeholder under augmentation -/

theorem flipLR_zero : flip_left_right zeroImg = zeroImg := by
  simp [flip_left_right, zeroImg, List.map_replicate, List.reverse_replicate]

theorem flipUD_zero : flip_up_down zeroImg = zeroImg := by
  simp [flip_up_down, zeroImg, List.reverse_replicate]

theorem zero_headD :
    zeroImg.headD [] = List.replicate IMG_SIZE (List.replicate 3 (0 : ℚ)) := by
  unfold zeroImg
  exact headD_replicate _ _ _ (by norm_num [IMG_SIZE])

theorem rot90_zero : rot90 zeroImg = zeroImg := by
  unfold rot90
  rw [zero_headD, List.length_replicate]
  have hinner : ∀ i : Nat, (List.range zeroImg.length).map
      (fun j => (zeroImg.getD j []).getD (IMG_SIZE - 1 - i) [0, 0, 0]) =
      List.replicate IMG_SIZE (List.replicate 3 (0 : ℚ)) := by
    intro i
    have hfn : ∀ j ∈ List.range zeroImg.length,
        (zeroImg.getD j []).getD (IMG_SIZE - 1 - i) [0, 0, 0] =
          List.replicate 3 (0 : ℚ) := by
      intro j hj
      rw [List.mem_range] at hj
      have h1 : zeroImg.getD j [] = List.replicate IMG_SIZE (List.replicate 3 (0 : ℚ)) := by
        unfold zeroImg
        exact getD_replicate _ _ _ _ (by simpa [zeroImg] using hj)
      rw [h1]
      exact getD_replicate _ _ _ _ (by simp only [IMG_SIZE]; omega)
    rw [List.map_congr_left hfn, range_map_const]
    simp [zeroImg]
  rw [List.map_congr_left (fun i _ => hinner i), range_map_const]
  rfl

theorem rot90k_zero (k : Nat) : rot90k k zeroImg = zeroImg := by
  induction k with
  | zero => rfl
  | succ m ih => simp [rot90k, rot90_zero, ih]

theorem brightness_const (delta q : ℚ) :
    adjust_brightness delta (constImg q) = constImg (q + delta) := by
  simp [adjust_brightness, constImg, List.map_replicate]

theorem clip_const (q : ℚ) :
    clip_by_value01 (constImg q) = constImg (clip01 q) := by
  simp [clip_by_value01, constImg, List.map_replicate]

theorem constImg_entry (q : ℚ) : (((constImg q).headD []).headD []).headD 0 = q := by
  unfold constImg
  rw [headD_replicate _ _ _ (by norm_num [IMG_SIZE]),
    headD_replicate _ _ _ (by norm_num [IMG_SIZE]),
    headD_replicate _ _ _ (by norm_num)]

/-! ### Evaluating `preprocess_image` -/

theorem afterDecode_val (r : AugRand) (p : Str) (img0 : Img) (logs : List LogMsg) :
    preprocessAfterDecode false r p img0 logs = .ok (img0, logs) := rfl

theorem afterDecode_train (r : AugRand) (p : Str) (img0 : Img) (logs : List LogMsg)
    (hshape : imgShape img0) :
    preprocessAfterDecode true r p img0 logs =
      .ok (clip_by_value01 (adjust_brightness r.delta (rot90k r.k.val
        (if r.flipUD then
          flip_up_down (if r.flipLR then flip_left_right img0 else img0)
        else (if r.flipLR then flip_left_right img0 else img0)))), logs) := by
  unfold preprocessAfterDecode
  rw [if_pos rfl, if_neg (by simp [hasNaN]), if_pos (tfShape_of_imgShape _ hshape)]

theorem preprocess_missing (fs : Str → Option RawImg) (r : AugRand) (p : Str)
    (hmiss : fs p = none) :
    preprocess_image fs true r p = .ok (constImg (clip01 r.delta), [.readFail p]) := by
  unfold preprocess_image
  rw [hmiss]
  show preprocessAfterDecode true r p zeroImg [.readFail p] = _
  rw [afterDecode_train r p zeroImg _ imgShape_zero]
  have hA : (if r.flipLR then flip_left_right zeroImg else zeroImg) = zeroImg := by
    cases r.flipLR <;> simp [flipLR_zero]
  rw [hA]
  have hB : (if r.flipUD then flip_up_down zeroImg else zeroImg) = zeroImg := by
    cases r.flipUD <;> simp [flipUD_zero]
  rw [hB, rot90k_zero]
  have hC : adjust_brightness r.delta zeroImg = constImg r.delta := by
    have hz : zeroImg = constImg 0 := rfl
    rw [hz, brightness_const]
    norm_num
  rw [hC, clip_const]

/-! ### C1: what the loader returns for a missing file in training mode -/

/-- C1 (counterexample): with the file missing and a brightness draw of
`delta = 1/10`, training-mode `preprocess_image` returns the constant
`1/10` image — the random-brightness augmentation is applied to the
zero placeholder as well — which is not the all-zero tensor, so the
result is neither all-zero nor deterministic. -/
theorem C1_counterexample :
    preprocess_image (fun _ => none) true ⟨false, false, 0, 1/10⟩ "c.jpg".toList =
      .ok (constImg (1/10), [.readFail "c.jpg".toList]) ∧
    constImg (1/10) ≠ zeroImg := by
  constructor
  · rw [preprocess_missing (fun _ => none) ⟨false, false, 0, 1/10⟩ "c.jpg".toList rfl]
    norm_num [clip01]
  · intro hcontra
    have h1 := congrArg (fun im => ((im.headD []).headD []).headD (0 : ℚ)) hcontra
    have hz : zeroImg = constImg 0 := rfl
    rw [hz] at h1
    simp only [constImg_entry] at h1
    norm_num at h1

/-- C1 (amended): for every missing or undecodable image path,
training-mode `preprocess_image` logs a read warning, raises no
exception, and returns a constant image of shape
`(IMG_SIZE, IMG_SIZE, 3)` all of whose entries equal
`clip(delta) = min(max(delta, 0), 1)` for that call's random brightness
delta — all-zero exactly when `delta ≤ 0`, since the augmentation
pipeline is applied to the placeholder too. -/
theorem C1_amended (fs : Str → Option RawImg) (r : AugRand) (p : Str)
    (hmiss : fs p = none) :
    preprocess_image fs true r p = .ok (constImg (clip01 r.delta), [.readFail p]) ∧
    imgShape (constImg (clip01 r.delta)) :=
  ⟨preprocess_missing fs r p hmiss, imgShape_const _⟩

/-- C1 (witness for the amended theorem): the spec's scenario file
`"c.jpg"` on an empty filesystem, with flips drawn, `k = 2` and
`delta = 1/10`. -/
theorem C1_amended_witness :
    preprocess_image (fun _ => none) true ⟨true, true, 2, 1/10⟩ "c.jpg".toList =
      .ok (constImg (clip01 (1/10)), [.readFail "c.jpg".toList]) ∧
    imgShape (constImg (clip01 (1/10))) :=
  C1_amended (fun _ => none) ⟨true, true, 2, 1/10⟩ "c.jpg".toList rfl

/-! ### C7: output shape and range, all modes, all inputs -/

/-- C7: for every path (decodable, missing or corrupt — `fs` returning
`some` only well-formed decoded images, as `cv2.imread` guarantees) and
in both training and validation mode, `preprocess_image` returns
(without exception) an image of shape `(IMG_SIZE, IMG_SIZE, 3)` whose
values all lie in `[0, 1]`. -/
theorem C7_shape_range (fs : Str → Option RawImg) (is_training : Bool)
    (r : AugRand) (p : Str)
    (hfs : ∀ q raw, fs q = some raw → ∃ h w, rawShape raw h w) :
    ∃ img logs, preprocess_image fs is_training r p = .ok (img, logs) ∧
      imgShape img ∧ imgIn01 img := by
  cases hdec : fs p with
  | none =>
    cases is_training with
    | false =>
      refine ⟨zeroImg, [.readFail p], ?_, imgShape_zero, imgIn01_zero⟩
      unfold preprocess_image
      rw [hdec]
      rfl
    | true =>
      refine ⟨clip_by_value01 (adjust_brightness r.delta (rot90k r.k.val
          (if r.flipUD then
            flip_up_down (if r.flipLR then flip_left_right zeroImg else zeroImg)
          else (if r.flipLR then flip_left_right zeroImg else zeroImg)))),
        [.readFail p], ?_, ?_, ?_⟩
      · unfold preprocess_image
        rw [hdec]
        show preprocessAfterDecode true r p zeroImg [.readFail p] = _
        rw [afterDecode_train r p zeroImg _ imgShape_zero]
      · exact imgShape_clip _ (imgShape_brightness _ _ (imgShape_rot90k _ _
          (imgShape_iteFlipUD r.flipUD _ (imgShape_iteFlipLR r.flipLR _ imgShape_zero))))
      · exact imgIn01_clip _
  | some raw =>
    obtain ⟨h, w, hraw⟩ := hfs p raw hdec
    have hresized : rawShape (cv2_resize (cvtColor_BGR2RGB raw)) IMG_SIZE IMG_SIZE :=
      rawShape_resize _ h w (rawShape_cvtColor _ h w hraw)
    have hshape0 : imgShape (scaleTo01 (cv2_resize (cvtColor_BGR2RGB raw))) :=
      scale_shape _ hresized
    have hin0 : imgIn01 (scaleTo01 (cv2_resize (cvtColor_BGR2RGB raw))) :=
      scale_in01 _ IMG_SIZE IMG_SIZE hresized
    cases is_training with
    | false =>
      refine ⟨scaleTo01 (cv2_resize (cvtColor_BGR2RGB raw)), [], ?_, hshape0, hin0⟩
      unfold preprocess_image
      rw [hdec]
      rfl
    | true =>
      refine ⟨clip_by_value01 (adjust_brightness r.delta (rot90k r.k.val
          (if r.flipUD then
            flip_up_down (if r.flipLR then
              flip_left_right (scaleTo01 (cv2_resize (cvtColor_BGR2RGB raw)))
            else scaleTo01 (cv2_resize (cvtColor_BGR2RGB raw)))
          else (if r.flipLR then
              flip_left_right (scaleTo01 (cv2_resize (cvtColor_BGR2RGB raw)))
            else scaleTo01 (cv2_resize (cvtColor_BGR2RGB raw)))))),
        [], ?_, ?_, ?_⟩
      · unfold preprocess_image
        rw [hdec]
        show preprocessAfterDecode true r p (scaleTo01 (cv2_resize (cvtColor_BGR2RGB raw))) [] = _
        rw [afterDecode_train r p _ _ hshape0]
      · exact imgShape_clip _ (imgShape_brightness _ _ (imgShape_rot90k _ _
          (imgShape_iteFlipUD r.flipUD _ (imgShape_iteFlipLR r.flipLR _ hshape0))))
      · exact imgIn01_clip _

/-- C7 (witness): the empty filesystem (every decode fails) in
validation mode. -/
theorem C7_shape_range_witness :
    ∃ img logs, preprocess_image (fun _ => none) false ⟨false, false, 0, 0⟩
        "c.jpg".toList = .ok (img, logs) ∧ imgShape img ∧ imgIn01 img :=
  C7_shape_range (fun _ => none) false ⟨false, false, 0, 0⟩ "c.jpg".toList
    (fun q raw hq => nomatch hq)
